import Mathlib

/-!
# Verification of the mindex entry pipeline (src/mindex.py)

Shallow embedding of the core data pipeline of `mindex.py`:
`readContent` (line classification, sorting, sort-key substitution),
`formatIndex`, and the layout computations `calcMargins` / `calcColumns`
together with the dimension validation performed by `getPaperSize`.

Python strings are modelled as Lean `String`s (lists of characters);
Python floats appearing in the layout computations are modelled as `ℚ`
(the values involved - user-entered dimensions, the paper constants `8.5`
and `11.0`, halving and comparison against `1.0` - stay within exactly
representable arithmetic, so `ℚ` is a faithful model of the comparisons
and the margin formulas).

`readContent` iterates over the lines of an open file.  Python file
iteration yields every line of the file, each line carrying its trailing
newline character (the final line possibly without one); it never yields
the empty string.  We therefore model the input as a `List String` of
lines.
-/

open List

/-- The characters stripped by Python's `str.strip()` for ASCII input
(space, tab, newline, carriage return, vertical tab, form feed). -/
def isPyWs (c : Char) : Bool :=
  c = ' ' || c = '\t' || c = '\n' || c = '\r' || c = '\x0b' || c = '\x0c'

/-- Python's `s.strip()`: remove leading and trailing whitespace. -/
def pyStrip (s : String) : String :=
  String.mk (List.rdropWhile isPyWs (s.data.dropWhile isPyWs))

/-- Helper for `pySplitTab`: split a character list on `'\t'`,
keeping empty fields (as Python's `str.split('\t')` does). -/
def splitTabsAux : List Char → List (List Char)
  | [] => [[]]
  | c :: cs =>
    match splitTabsAux cs with
    | [] => [[]]
    | f :: rest => if c = '\t' then [] :: f :: rest else (c :: f) :: rest

/-- Python's `s.split('\t')`: every occurrence of the tab separator splits,
empty fields are kept, and the empty string yields `[""]`. -/
def pySplitTab (s : String) : List String :=
  (splitTabsAux s.data).map String.mk

/-- Python's `s.lower()` for ASCII input. -/
def pyLower (s : String) : String :=
  String.mk (s.data.map Char.toLower)

/-- Lexicographic comparison of character lists by code point: the
boolean form of Python's `<=` on strings. -/
def charLe : List Char → List Char → Bool
  | [], _ => true
  | _ :: _, [] => false
  | a :: as, b :: bs =>
    if a.toNat < b.toNat then true
    else if b.toNat < a.toNat then false
    else charLe as bs

/-- Python's `<=` on strings (lexicographic by code point). -/
def strLe (a b : String) : Bool := charLe a.data b.data

/-- The comparison underlying `data.sort(key=lambda x: x[0].lower())`
(src/mindex.py line 134): compare entries by their lowercased first
field. -/
def entLe (x y : String × String) : Bool := strLe (pyLower x.1) (pyLower y.1)

/-- `entLe` as a relation, for use with `List.insertionSort`. -/
def entRel (x y : String × String) : Prop := entLe x y = true

instance : DecidableRel entRel := fun x y => inferInstanceAs (Decidable (entLe x y = true))

/-- The state built up by the parsing loop of `readContent`
(src/mindex.py lines 106-130): `data` holds the provisional
`[field, page]` entries, `errors` the raw split fields of rejected lines,
and `sortDict` the sort-key map.  The Python dict `sortDict` is modelled
as an association list where the newest binding is consed to the front
and `dictLookup` returns the newest binding, matching dict overwrite
semantics observationally. -/
structure ParseState where
  data : List (String × String)
  errors : List (List String)
  sortDict : List (String × String)
deriving DecidableEq

/-- Lookup in the modelled Python dict: newest binding first. -/
def dictLookup (d : List (String × String)) (k : String) : Option String :=
  (d.find? (fun p => p.1 == k)).map Prod.snd

/-- The test `entry[0] == "#"` on a raw line (src/mindex.py line 112).
Python file iteration never yields the empty string, so the `[]` case is
unreachable on real input. -/
def startsHash (s : String) : Bool :=
  match s.data with
  | [] => false
  | c :: _ => c = '#'

/-- One iteration of the parsing loop of `readContent`
(src/mindex.py lines 110-130): skip comments (first character `'#'`)
and lone newlines, then classify the tab-split fields: exactly 3 fields
with non-empty stripped third field records a sort key and a provisional
entry; 3 fields with empty stripped third field, or exactly 2 fields, a
normal entry; anything else is appended to the error list. -/
def parseLine (s : ParseState) (line : String) : ParseState :=
  if startsHash line then s
  else if line = "\n" then s
  else if (pySplitTab line).length = 3 ∧ pyStrip ((pySplitTab line).getD 2 "") ≠ "" then
    { s with
      sortDict :=
        (pyStrip ((pySplitTab line).getD 2 ""), pyStrip ((pySplitTab line).getD 0 ""))
          :: s.sortDict,
      data := s.data ++ [(pyStrip ((pySplitTab line).getD 2 ""),
                          pyStrip ((pySplitTab line).getD 1 ""))] }
  else if ((pySplitTab line).length = 3 ∧ pyStrip ((pySplitTab line).getD 2 "") = "")
      ∨ (pySplitTab line).length = 2 then
    { s with data := s.data ++ [(pyStrip ((pySplitTab line).getD 0 ""),
                                 pyStrip ((pySplitTab line).getD 1 ""))] }
  else
    { s with errors := s.errors ++ [pySplitTab line] }

/-- The whole parsing loop of `readContent` over the file's lines. -/
def parseLines (ls : List String) : ParseState :=
  ls.foldl parseLine ⟨[], [], []⟩

/-- `data.sort(key=lambda x: x[0].lower())` (src/mindex.py line 134):
Python's `list.sort` is a stable sort by the given key, which insertion
sort with `entRel` implements. -/
def pySortEntries (l : List (String × String)) : List (String × String) :=
  List.insertionSort entRel l

/-- The substitution loop of `readContent` (src/mindex.py lines 135-137):
an entry whose first field is a recorded sort key gets that field
replaced by the mapped display term. -/
def resolveEntry (d : List (String × String)) (e : String × String) : String × String :=
  match dictLookup d e.1 with
  | some v => (v, e.2)
  | none => e

/-- `readContent` on the lines of the input file (src/mindex.py
lines 105-148), returning the final `data` list: parse every line, sort
the provisional entries by lowercased first field, then substitute
recorded sort keys by their display terms. -/
def readContentLines (ls : List String) : List (String × String) :=
  (pySortEntries (parseLines ls).data).map (resolveEntry (parseLines ls).sortDict)

/-- Decidable test used to state sort-key shadowing hypotheses: does
this line, when processed by the loop, record the sort key `key`
(i.e. is it a non-skipped line with exactly 3 tab-separated fields whose
stripped third field equals `key`)? -/
def recordsKeyB (key : String) (line : String) : Bool :=
  !(startsHash line) && !(line == "\n")
    && ((pySplitTab line).length == 3)
    && (pyStrip ((pySplitTab line).getD 2 "") == key)

/-- The index-item directive emitted for one entry by `formatIndex`
(src/mindex.py line 154): `"\item ~%s, %s" % (i[0], i[1])`. -/
def itemDirective (e : String × String) : String :=
  "\\item ~" ++ e.1 ++ ", " ++ e.2

/-- `formatIndex` (src/mindex.py lines 151-155): start from the empty
string and append one directive per entry. -/
def formatIndex (data : List (String × String)) : String :=
  data.foldl (fun acc e => acc ++ "\\item ~" ++ e.1 ++ ", " ++ e.2) ""

/-- The two paper axes, indexing `PAPER_DIMS` (src/mindex.py line 26). -/
inductive PaperAxis where
  | X
  | Y
deriving DecidableEq

/-- `PAPER_DIMS = {'X': 8.5, 'Y': 11.0}` (src/mindex.py line 26). -/
def PAPER_DIMS : PaperAxis → ℚ
  | PaperAxis.X => 17 / 2
  | PaperAxis.Y => 11

/-- The validation performed by the prompt loop `getPaperSize`
(src/mindex.py lines 63-81): an entered value is accepted (returned)
iff none of the three rejection branches fires; otherwise the loop
prints a message and re-prompts. -/
def getPaperSizeAccepts (which : PaperAxis) (ps : ℚ) : Bool :=
  if ps > PAPER_DIMS which then false
  else if ps ≤ 0 then false
  else if PAPER_DIMS which - ps < 1 then false
  else true

/-- `calcMargins` (src/mindex.py lines 93-96): unconditional margin
computation from the requested dimensions; the function performs no
validation. -/
def calcMargins (xdim ydim : ℚ) : ℚ × ℚ :=
  ((PAPER_DIMS PaperAxis.X - xdim) / 2, (PAPER_DIMS PaperAxis.Y - ydim) / 2)

/-- Python's `int()` on a rational value: truncation toward zero. -/
def pyTrunc (q : ℚ) : ℤ :=
  if 0 ≤ q then ⌊q⌋ else ⌈q⌉

/-- `calcColumns` (src/mindex.py lines 99-102): `int(xdim / 1.5)`. -/
def calcColumns (xdim : ℚ) : ℤ :=
  pyTrunc (xdim / (3 / 2))

/-- Internal invariant of the parse state used for the field-trimming
properties: all entry fields, dict keys and dict values are fixed points
of `pyStrip`, and every dict key and every provisional first field of a
sort-key entry is non-empty.  (Only trimming facts are claimed for entry
fields: the code never checks fields 0 and 1 for emptiness.) -/
def StateTrimmed (s : ParseState) : Prop :=
  (∀ e ∈ s.data, pyStrip e.1 = e.1 ∧ pyStrip e.2 = e.2) ∧
  (∀ kv ∈ s.sortDict, kv.1 ≠ "" ∧ pyStrip kv.1 = kv.1 ∧ pyStrip kv.2 = kv.2)

/-! ## Order properties of the comparison -/

theorem charLe_refl (l : List Char) : charLe l l = true := by
  induction l with
  | nil => rfl
  | cons a as ih => simp [charLe, ih]

theorem charLe_total (a b : List Char) : charLe a b = true ∨ charLe b a = true := by
  induction a generalizing b with
  | nil => exact Or.inl rfl
  | cons x xs ih =>
    cases b with
    | nil => exact Or.inr rfl
    | cons y ys =>
      rcases Nat.lt_trichotomy x.toNat y.toNat with h | h | h
      · exact Or.inl (by simp [charLe, h])
      · rcases ih ys with h2 | h2
        · exact Or.inl (by simp [charLe, h, h2])
        · exact Or.inr (by simp [charLe, h.symm, h2])
      · exact Or.inr (by simp [charLe, h])

theorem charLe_trans {a b c : List Char} (h1 : charLe a b = true)
    (h2 : charLe b c = true) : charLe a c = true := by
  induction a generalizing b c with
  | nil => rfl
  | cons x xs ih =>
    cases b with
    | nil => simp [charLe] at h1
    | cons y ys =>
      cases c with
      | nil => simp [charLe] at h2
      | cons z zs =>
        simp only [charLe] at h1 h2 ⊢
        rcases Nat.lt_trichotomy x.toNat y.toNat with hxy | hxy | hxy
        · rcases Nat.lt_trichotomy y.toNat z.toNat with hyz | hyz | hyz
          · simp [show x.toNat < z.toNat by omega]
          · simp [show x.toNat < z.toNat by omega]
          · simp [show ¬ y.toNat < z.toNat by omega, hyz] at h2
        · rcases Nat.lt_trichotomy y.toNat z.toNat with hyz | hyz | hyz
          · simp [show x.toNat < z.toNat by omega]
          · have h1' : charLe xs ys = true := by
              simpa [show ¬ x.toNat < y.toNat by omega,
                     show ¬ y.toNat < x.toNat by omega] using h1
            have h2' : charLe ys zs = true := by
              simpa [show ¬ y.toNat < z.toNat by omega,
                     show ¬ z.toNat < y.toNat by omega] using h2
            simp [show ¬ x.toNat < z.toNat by omega,
                  show ¬ z.toNat < x.toNat by omega, ih h1' h2']
          · simp [show ¬ y.toNat < z.toNat by omega, hyz] at h2
        · simp [show ¬ x.toNat < y.toNat by omega, hxy] at h1

theorem entRel_total (x y : String × String) : entRel x y ∨ entRel y x :=
  charLe_total _ _

theorem entRel_trans {x y z : String × String} (h1 : entRel x y) (h2 : entRel y z) :
    entRel x z :=
  charLe_trans h1 h2

theorem entRel_of_eq_key {x y : String × String} (h : pyLower x.1 = pyLower y.1) :
    entRel x y := by
  unfold entRel entLe strLe
  rw [h]
  exact charLe_refl _

/-! ## Case lemmas for `parseLine` -/

theorem parseLine_skip (s : ParseState) (line : String)
    (h : startsHash line = true ∨ line = "\n") : parseLine s line = s := by
  rcases h with h | h
  · simp [parseLine, h]
  · subst h
    have hsh : startsHash "\n" = false := by decide
    simp [parseLine, hsh]

theorem parseLine_explicit (s : ParseState) (line t p k : String)
    (hh : startsHash line = false) (hn : line ≠ "\n")
    (hs : pySplitTab line = [t, p, k]) (hk : pyStrip k ≠ "") :
    parseLine s line =
      { s with sortDict := (pyStrip k, pyStrip t) :: s.sortDict,
               data := s.data ++ [(pyStrip k, pyStrip p)] } := by
  simp only [parseLine, hs, hh, hn]
  simp [List.getD, hk]

theorem parseLine_normal3 (s : ParseState) (line t p k : String)
    (hh : startsHash line = false) (hn : line ≠ "\n")
    (hs : pySplitTab line = [t, p, k]) (hk : pyStrip k = "") :
    parseLine s line = { s with data := s.data ++ [(pyStrip t, pyStrip p)] } := by
  simp only [parseLine, hs, hh, hn]
  simp [List.getD, hk]

theorem parseLine_normal2 (s : ParseState) (line t p : String)
    (hh : startsHash line = false) (hn : line ≠ "\n")
    (hs : pySplitTab line = [t, p]) :
    parseLine s line = { s with data := s.data ++ [(pyStrip t, pyStrip p)] } := by
  simp only [parseLine, hs, hh, hn]
  simp [List.getD]

theorem parseLine_reject (s : ParseState) (line : String)
    (hh : startsHash line = false) (hn : line ≠ "\n")
    (h2 : (pySplitTab line).length ≠ 2) (h3 : (pySplitTab line).length ≠ 3) :
    parseLine s line = { s with errors := s.errors ++ [pySplitTab line] } := by
  simp only [parseLine, hh, hn]
  simp [h2, h3]

/-! ## Structure of the parsing fold -/

theorem foldl_parseLine_append (s : ParseState) (as bs : List String) :
    (as ++ bs).foldl parseLine s = bs.foldl parseLine (as.foldl parseLine s) :=
  List.foldl_append parseLine s as bs

theorem parseLine_data_extend (s : ParseState) (l : String) :
    ∃ tl, (parseLine s l).data = s.data ++ tl := by
  unfold parseLine
  split_ifs
  · exact ⟨[], by simp⟩
  · exact ⟨[], by simp⟩
  · exact ⟨_, rfl⟩
  · exact ⟨_, rfl⟩
  · exact ⟨[], by simp⟩

theorem parseLine_errors_extend (s : ParseState) (l : String) :
    ∃ tl, (parseLine s l).errors = s.errors ++ tl := by
  unfold parseLine
  split_ifs
  · exact ⟨[], by simp⟩
  · exact ⟨[], by simp⟩
  · exact ⟨[], by simp⟩
  · exact ⟨[], by simp⟩
  · exact ⟨_, rfl⟩

theorem foldl_parseLine_data_extend (ls : List String) (s : ParseState) :
    ∃ tl, (ls.foldl parseLine s).data = s.data ++ tl := by
  induction ls generalizing s with
  | nil => exact ⟨[], by simp⟩
  | cons l ls ih =>
    obtain ⟨t1, h1⟩ := parseLine_data_extend s l
    obtain ⟨t2, h2⟩ := ih (parseLine s l)
    exact ⟨t1 ++ t2, by simp [h2, h1]⟩

theorem foldl_parseLine_errors_extend (ls : List String) (s : ParseState) :
    ∃ tl, (ls.foldl parseLine s).errors = s.errors ++ tl := by
  induction ls generalizing s with
  | nil => exact ⟨[], by simp⟩
  | cons l ls ih =>
    obtain ⟨t1, h1⟩ := parseLine_errors_extend s l
    obtain ⟨t2, h2⟩ := ih (parseLine s l)
    exact ⟨t1 ++ t2, by simp [h2, h1]⟩

theorem foldl_parseLine_data_mem (ls : List String) (s : ParseState)
    (e : String × String) (h : e ∈ s.data) : e ∈ (ls.foldl parseLine s).data := by
  obtain ⟨tl, htl⟩ := foldl_parseLine_data_extend ls s
  rw [htl]
  exact List.mem_append_left _ h

theorem foldl_parseLine_errors_mem (ls : List String) (s : ParseState)
    (f : List String) (h : f ∈ s.errors) : f ∈ (ls.foldl parseLine s).errors := by
  obtain ⟨tl, htl⟩ := foldl_parseLine_errors_extend ls s
  rw [htl]
  exact List.mem_append_left _ h

/-- The `data` and `sortDict` components of a parsing step do not depend
on the `errors` component of the state. -/
theorem parseLine_congr (s₁ s₂ : ParseState) (l : String)
    (hd : s₁.data = s₂.data) (hk : s₁.sortDict = s₂.sortDict) :
    (parseLine s₁ l).data = (parseLine s₂ l).data ∧
      (parseLine s₁ l).sortDict = (parseLine s₂ l).sortDict := by
  unfold parseLine
  split_ifs <;> simp [hd, hk]

theorem foldl_parseLine_congr (ls : List String) (s₁ s₂ : ParseState)
    (hd : s₁.data = s₂.data) (hk : s₁.sortDict = s₂.sortDict) :
    (ls.foldl parseLine s₁).data = (ls.foldl parseLine s₂).data ∧
      (ls.foldl parseLine s₁).sortDict = (ls.foldl parseLine s₂).sortDict := by
  induction ls generalizing s₁ s₂ with
  | nil => exact ⟨hd, hk⟩
  | cons l ls ih =>
    obtain ⟨hd', hk'⟩ := parseLine_congr s₁ s₂ l hd hk
    exact ih _ _ hd' hk'

/-- Either a parsing step leaves the dict unchanged, or the line is an
explicit-sort-key line and the step conses the new binding. -/
theorem parseLine_dict_cases (s : ParseState) (l : String) :
    (parseLine s l).sortDict = s.sortDict ∨
      ∃ t p k, startsHash l = false ∧ l ≠ "\n" ∧ pySplitTab l = [t, p, k] ∧
        pyStrip k ≠ "" ∧
        (parseLine s l).sortDict = (pyStrip k, pyStrip t) :: s.sortDict := by
  by_cases hh : startsHash l = true
  · left; rw [parseLine_skip s l (Or.inl hh)]
  · by_cases hn : l = "\n"
    · left; rw [parseLine_skip s l (Or.inr hn)]
    · by_cases h3 : (pySplitTab l).length = 3
      · obtain ⟨t, p, k, hs⟩ := List.length_eq_three.mp h3
        by_cases hk : pyStrip k = ""
        · left
          rw [parseLine_normal3 s l t p k (by simpa using hh) hn hs hk]
        · right
          exact ⟨t, p, k, by simpa using hh, hn, hs, hk,
            by rw [parseLine_explicit s l t p k (by simpa using hh) hn hs hk]⟩
      · by_cases h2 : (pySplitTab l).length = 2
        · obtain ⟨t, p, hs⟩ := List.length_eq_two.mp h2
          left
          rw [parseLine_normal2 s l t p (by simpa using hh) hn hs]
        · left
          rw [parseLine_reject s l (by simpa using hh) hn h2 h3]

/-- If no line of `ls` records the sort key `key`, folding over `ls`
does not change what `key` maps to. -/
theorem foldl_parseLine_dict_stable (ls : List String) (s : ParseState)
    (key : String) (h : ∀ l ∈ ls, recordsKeyB key l = false) :
    dictLookup (ls.foldl parseLine s).sortDict key = dictLookup s.sortDict key := by
  induction ls generalizing s with
  | nil => rfl
  | cons l ls ih =>
    have hl := h l (List.mem_cons_self l ls)
    have htl : ∀ l' ∈ ls, recordsKeyB key l' = false :=
      fun l' hl' => h l' (List.mem_cons_of_mem l hl')
    rw [List.foldl_cons, ih (parseLine s l) htl]
    rcases parseLine_dict_cases s l with hc | ⟨t, p, k, hh, hn, hs, hk, hc⟩
    · rw [hc]
    · rw [hc]
      unfold recordsKeyB at hl
      rw [hs] at hl
      simp only [hh, hn, List.getD] at hl
      simp at hl
      unfold dictLookup
      rw [List.find?_cons_of_neg _ (by simp [hl hn])]

/-! ## Trimming is idempotent -/

theorem dropWhile_rdropWhile_fixed {α : Type} (p : α → Bool) (m : List α)
    (hm : m.dropWhile p = m) :
    (List.rdropWhile p m).dropWhile p = List.rdropWhile p m := by
  rw [List.dropWhile_eq_self_iff]
  intro hl
  have hpre : List.rdropWhile p m <+: m := List.rdropWhile_prefix p m
  have hlm : 0 < m.length := lt_of_lt_of_le hl hpre.length_le
  have hget : (List.rdropWhile p m).get ⟨0, hl⟩ = m.get ⟨0, hlm⟩ := by
    simp [List.get_eq_getElem, hpre.getElem hl]
  rw [hget]
  exact List.dropWhile_eq_self_iff.mp hm hlm

theorem pyStrip_idem (s : String) : pyStrip (pyStrip s) = pyStrip s := by
  unfold pyStrip
  congr 1
  show List.rdropWhile isPyWs
      ((List.rdropWhile isPyWs (s.data.dropWhile isPyWs)).dropWhile isPyWs)
      = List.rdropWhile isPyWs (s.data.dropWhile isPyWs)
  rw [dropWhile_rdropWhile_fixed isPyWs _ (List.dropWhile_idempotent isPyWs s.data)]
  exact List.rdropWhile_idempotent isPyWs _

/-! ## The sorting step: permutation, sortedness, stability -/

theorem pySortEntries_perm (l : List (String × String)) : pySortEntries l ~ l :=
  List.perm_insertionSort entRel l

theorem pySortEntries_pairwise (l : List (String × String)) :
    List.Pairwise entRel (pySortEntries l) := by
  haveI : IsTotal (String × String) entRel := ⟨entRel_total⟩
  haveI : IsTrans (String × String) entRel := ⟨fun a b c h1 h2 => entRel_trans h1 h2⟩
  exact List.sorted_insertionSort entRel l

theorem pySortEntries_filter_stable (l : List (String × String))
    (p : String × String → Bool)
    (hp : ∀ x y, p x = true → p y = true → entRel x y) :
    (pySortEntries l).filter p = l.filter p := by
  have hc : l.filter p <+ l := List.filter_sublist l
  have hpw : List.Pairwise entRel (l.filter p) :=
    List.pairwise_of_forall_mem_list fun a ha b hb =>
      hp a b (List.of_mem_filter ha) (List.of_mem_filter hb)
  have hsub : l.filter p <+ pySortEntries l := List.sublist_insertionSort hpw hc
  have hfix : (l.filter p).filter p = l.filter p :=
    List.filter_eq_self.mpr fun a ha => List.of_mem_filter ha
  have hsub2 : l.filter p <+ (pySortEntries l).filter p := by
    have h := hsub.filter p
    rwa [hfix] at h
  have hlen : ((pySortEntries l).filter p).length = (l.filter p).length :=
    ((pySortEntries_perm l).filter p).length_eq
  exact (hsub2.eq_of_length hlen.symm).symm

theorem get?_map_general {α β : Type} (f : α → β) (l : List α) (i : ℕ) :
    (l.map f).get? i = (l.get? i).map f := by
  simp [List.get?_eq_getElem?, List.getElem?_map]

theorem parseLine_data_mem (s : ParseState) (l : String) (e : String × String)
    (h : e ∈ s.data) : e ∈ (parseLine s l).data := by
  obtain ⟨tl, htl⟩ := parseLine_data_extend s l
  rw [htl]
  exact List.mem_append_left _ h

theorem string_join_cons (x : String) (xs : List String) :
    String.join (x :: xs) = x ++ String.join xs := by
  apply String.ext
  simp

theorem formatIndex_foldl_general (l : List (String × String)) (a : String) :
    l.foldl (fun acc e => acc ++ "\\item ~" ++ e.1 ++ ", " ++ e.2) a
      = a ++ String.join (l.map itemDirective) := by
  induction l generalizing a with
  | nil => simp [String.join]
  | cons e l ih =>
    rw [List.foldl_cons, ih, List.map_cons, string_join_cons]
    apply String.ext
    simp [itemDirective]

/-! ## The claims -/

/-- C1: a line that is neither skipped nor rejected is classified as
follows.  With exactly 3 tab-separated fields and a non-empty trimmed
third field, the parser records the side mapping
trimmed field[2] -> trimmed field[0] in `sortDict` and appends the
provisional entry (trimmed field[2], trimmed field[1]) to `data`; with
exactly 3 fields and an empty trimmed third field, or exactly 2 fields,
it appends the normal entry (trimmed field[0], trimmed field[1]) and
records nothing.  Because the third field is trimmed before the
emptiness test, a whitespace-only third field yields a normal entry. -/
theorem c1_line_classification (s : ParseState) (line t p k : String)
    (hh : startsHash line = false) (hn : line ≠ "\n") :
    (pySplitTab line = [t, p, k] → pyStrip k ≠ "" →
        parseLine s line =
          { s with sortDict := (pyStrip k, pyStrip t) :: s.sortDict,
                   data := s.data ++ [(pyStrip k, pyStrip p)] }) ∧
    (pySplitTab line = [t, p, k] → pyStrip k = "" →
        parseLine s line = { s with data := s.data ++ [(pyStrip t, pyStrip p)] }) ∧
    (pySplitTab line = [t, p] →
        parseLine s line = { s with data := s.data ++ [(pyStrip t, pyStrip p)] }) :=
  ⟨fun hs hk => parseLine_explicit s line t p k hh hn hs hk,
   fun hs hk => parseLine_normal3 s line t p k hh hn hs hk,
   fun hs => parseLine_normal2 s line t p hh hn hs⟩

/-- Witness for C1 at two concrete lines: a whitespace-only third field
gives a normal entry, and a non-empty third field records the mapping. -/
theorem c1_witness :
    parseLine ⟨[], [], []⟩ "a\tb\t \n" = ⟨[("a", "b")], [], []⟩ ∧
    parseLine ⟨[], [], []⟩ "a\tb\tc\n" = ⟨[("c", "b")], [], [("c", "a")]⟩ := by
  constructor
  · exact ((c1_line_classification ⟨[], [], []⟩ "a\tb\t \n" "a" "b" " \n" (by decide)
      (by decide)).2.1 (by decide) (by decide)).trans (by decide)
  · exact ((c1_line_classification ⟨[], [], []⟩ "a\tb\tc\n" "a" "b" "c\n" (by decide)
      (by decide)).1 (by decide) (by decide)).trans (by decide)

/-- C5 (amended): a line is silently skipped - the parse state is
unchanged, so it contributes neither an entry nor a rejected line -
iff its raw first character is `'#'` (no trimming applied) or it is
exactly a lone newline; every other line contributes exactly one
record, an entry or a rejection.  In particular a line beginning with
`'#'` only after trimming is not skipped, and a whitespace-only line
other than the lone newline is not skipped: it is classified by its
tab-split field count like any other line (so " \n" is rejected while
"\t\n" is retained as an entry). -/
theorem c5_skip_comment_newline (s : ParseState) (line : String) :
    (startsHash line = true ∨ line = "\n" → parseLine s line = s) ∧
    (startsHash line = false → line ≠ "\n" →
      (parseLine s line).data.length + (parseLine s line).errors.length
        = s.data.length + s.errors.length + 1) := by
  refine ⟨parseLine_skip s line, fun hh hn => ?_⟩
  by_cases h3 : (pySplitTab line).length = 3
  · obtain ⟨t, p, k, hs⟩ := List.length_eq_three.mp h3
    by_cases hk : pyStrip k = ""
    · rw [parseLine_normal3 s line t p k hh hn hs hk]
      simp only [List.length_append, List.length_singleton]
      omega
    · rw [parseLine_explicit s line t p k hh hn hs hk]
      simp only [List.length_append, List.length_singleton]
      omega
  · by_cases h2 : (pySplitTab line).length = 2
    · obtain ⟨t, p, hs⟩ := List.length_eq_two.mp h2
      rw [parseLine_normal2 s line t p hh hn hs]
      simp only [List.length_append, List.length_singleton]
      omega
    · rw [parseLine_reject s line hh hn h2 h3]
      simp only [List.length_append, List.length_singleton]
      omega

theorem c5_witness :
    parseLine ⟨[], [], []⟩ "# note\n" = ⟨[], [], []⟩ ∧
    parseLine ⟨[], [], []⟩ "\n" = ⟨[], [], []⟩ ∧
    (parseLine ⟨[], [], []⟩ " \n").data.length
        + (parseLine ⟨[], [], []⟩ " \n").errors.length = 0 + 0 + 1 ∧
    (parseLine ⟨[], [], []⟩ "\t\n").data.length
        + (parseLine ⟨[], [], []⟩ "\t\n").errors.length = 0 + 0 + 1 :=
  ⟨(c5_skip_comment_newline ⟨[], [], []⟩ "# note\n").1 (Or.inl (by decide)),
   (c5_skip_comment_newline ⟨[], [], []⟩ "\n").1 (Or.inr rfl),
   (c5_skip_comment_newline ⟨[], [], []⟩ " \n").2 (by decide) (by decide),
   (c5_skip_comment_newline ⟨[], [], []⟩ "\t\n").2 (by decide) (by decide)⟩

/-- C5 counterexample: the line " #x\ty\n" begins with `'#'` after
trimming, yet it is NOT skipped - it produces a normal entry; and the
whitespace-only (blank after trimming) line " \n" is NOT skipped - it is
rejected into the error list. -/
theorem c5_counterexample :
    parseLine ⟨[], [], []⟩ " #x\ty\n" = ⟨[("#x", "y")], [], []⟩ ∧
    parseLine ⟨[], [], []⟩ " \n" = ⟨[], [[" \n"]], []⟩ := by
  exact ⟨by decide, by decide⟩

/-- C8: the formatter emits one directive per entry - item marker, the
display term, a comma, a space, the page reference, both fields passed
through verbatim - concatenated with no separator and no trailing
separator; zero entries yield the empty string. -/
theorem c8_formatter (data : List (String × String)) :
    formatIndex data = String.join (data.map itemDirective) ∧
    itemDirective = (fun e : String × String => "\\item ~" ++ e.1 ++ ", " ++ e.2) ∧
    formatIndex [] = "" := by
  refine ⟨?_, rfl, rfl⟩
  have h := formatIndex_foldl_general data ""
  unfold formatIndex
  rw [h]
  apply String.ext
  simp

/-- C9 counterexample: width `8.0` violates the minimum-margin bound
(`8.5 - 8.0 < 1.0`), so per the claim a direct call to the resolver
should reject it; but `calcMargins` performs no validation and computes
margins `(0.25, 0)` from it.  (The prompt-level validation
`getPaperSizeAccepts` does classify `8.0` as invalid.) -/
theorem c9_counterexample :
    getPaperSizeAccepts PaperAxis.X 8 = false ∧
    calcMargins 8 11 = (1 / 4, 0) := by
  constructor
  · simp only [getPaperSizeAccepts, PAPER_DIMS]
    norm_num
  · simp only [calcMargins, PAPER_DIMS, Prod.mk.injEq]
    norm_num

/-- C9 (amended): the bounds validation lives in the interactive prompt
`getPaperSize`, not in the resolver: the prompt accepts a dimension
`d` iff `0 < d`, `d ≤ PAPER_DIMS which` and `PAPER_DIMS which - d ≥ 1`
(otherwise it reports and re-prompts), while `calcMargins` performs no
validation and computes the margins unconditionally from whatever
values it is given. -/
theorem c9_validation (which : PaperAxis) (d : ℚ) :
    (getPaperSizeAccepts which d = true ↔
      0 < d ∧ d ≤ PAPER_DIMS which ∧ 1 ≤ PAPER_DIMS which - d) ∧
    ∀ x y : ℚ, calcMargins x y
      = ((PAPER_DIMS PaperAxis.X - x) / 2, (PAPER_DIMS PaperAxis.Y - y) / 2) := by
  constructor
  · unfold getPaperSizeAccepts
    split_ifs with h1 h2 h3
    · simp only [Bool.false_eq_true, false_iff]
      rintro ⟨-, hb, -⟩
      exact absurd h1 (not_lt.mpr hb)
    · simp only [Bool.false_eq_true, false_iff]
      rintro ⟨ha, -, -⟩
      exact absurd ha (not_lt.mpr h2)
    · simp only [Bool.false_eq_true, false_iff]
      rintro ⟨-, -, hc⟩
      exact absurd h3 (not_lt.mpr hc)
    · simp only [true_iff]
      exact ⟨not_le.mp h2, not_lt.mp h1, not_lt.mp h3⟩
  · intro x y
    rfl

/-- C2: the post-parse sort orders the entry list by lowercased first
field (consecutive entries are `entLe`-related, hence by transitivity
any entry precedes another only if its lowercased key is `≤`), it is a
permutation of the parsed list, and it is stable: for every key value,
the subsequence of entries with that lowercased key is exactly the
parsed (input-order) subsequence. -/
theorem c2_stable_sort (ls : List String) :
    List.Pairwise entRel (pySortEntries (parseLines ls).data) ∧
    pySortEntries (parseLines ls).data ~ (parseLines ls).data ∧
    ∀ key : String,
      (pySortEntries (parseLines ls).data).filter (fun e => pyLower e.1 == key)
        = (parseLines ls).data.filter (fun e => pyLower e.1 == key) := by
  refine ⟨pySortEntries_pairwise _, pySortEntries_perm _, fun key => ?_⟩
  apply pySortEntries_filter_stable
  intro x y hx hy
  have hx' : pyLower x.1 = key := by simpa using hx
  have hy' : pyLower y.1 = key := by simpa using hy
  exact entRel_of_eq_key (hx'.trans hy'.symm)

theorem parseLine_trimmed (s : ParseState) (l : String) (h : StateTrimmed s) :
    StateTrimmed (parseLine s l) := by
  obtain ⟨hd, hk⟩ := h
  unfold StateTrimmed
  unfold parseLine
  split_ifs with h1 h2 h3 h4
  · exact ⟨hd, hk⟩
  · exact ⟨hd, hk⟩
  · constructor
    · intro e he
      rcases List.mem_append.mp he with he | he
      · exact hd e he
      · rcases List.mem_singleton.mp he with rfl
        exact ⟨pyStrip_idem _, pyStrip_idem _⟩
    · intro kv hkv
      rcases List.mem_cons.mp hkv with rfl | hkv
      · exact ⟨h3.2, pyStrip_idem _, pyStrip_idem _⟩
      · exact hk kv hkv
  · constructor
    · intro e he
      rcases List.mem_append.mp he with he | he
      · exact hd e he
      · rcases List.mem_singleton.mp he with rfl
        exact ⟨pyStrip_idem _, pyStrip_idem _⟩
    · exact hk
  · exact ⟨hd, hk⟩

theorem parseLines_trimmed (ls : List String) : StateTrimmed (parseLines ls) := by
  have hgen : ∀ s, StateTrimmed s → StateTrimmed (ls.foldl parseLine s) := by
    induction ls with
    | nil => exact fun s h => h
    | cons l ls ih => exact fun s h => ih _ (parseLine_trimmed s l h)
  refine hgen ⟨[], [], []⟩ ⟨?_, ?_⟩
  · intro e he
    cases he
  · intro kv hkv
    cases hkv

theorem resolveEntry_trimmed (d : List (String × String)) (e : String × String)
    (hdv : ∀ kv ∈ d, pyStrip kv.2 = kv.2)
    (he : pyStrip e.1 = e.1 ∧ pyStrip e.2 = e.2) :
    pyStrip (resolveEntry d e).1 = (resolveEntry d e).1 ∧
      pyStrip (resolveEntry d e).2 = (resolveEntry d e).2 := by
  unfold resolveEntry
  cases hf : dictLookup d e.1 with
  | none => exact he
  | some v =>
    unfold dictLookup at hf
    cases hfind : List.find? (fun q => q.1 == e.1) d with
    | none => rw [hfind] at hf; cases hf
    | some kv =>
      rw [hfind] at hf
      have hv : kv.2 = v := by simpa using hf
      subst hv
      exact ⟨hdv kv (List.mem_of_find?_eq_some hfind), he.2⟩

/-- C4 (amended): every retained entry's displayTerm and pageRef carry
no surrounding whitespace (they are fixed points of trimming, though
possibly empty - the code never checks them for emptiness), and every
recorded sort key is non-empty and trimmed. -/
theorem c4_trimmed_fields (ls : List String) :
    (∀ e ∈ readContentLines ls, pyStrip e.1 = e.1 ∧ pyStrip e.2 = e.2) ∧
    (∀ kv ∈ (parseLines ls).sortDict, kv.1 ≠ "" ∧ pyStrip kv.1 = kv.1) := by
  obtain ⟨hd, hk⟩ := parseLines_trimmed ls
  refine ⟨fun e he => ?_, fun kv hkv => ⟨(hk kv hkv).1, (hk kv hkv).2.1⟩⟩
  unfold readContentLines at he
  obtain ⟨e0, he0, heq⟩ := List.mem_map.mp he
  have he0' : e0 ∈ (parseLines ls).data := ((pySortEntries_perm _).mem_iff).mp he0
  subst heq
  exact resolveEntry_trimmed _ e0 (fun kv hkv => (hk kv hkv).2.2) (hd e0 he0')

theorem c4_witness :
    pyStrip ("x", "y").1 = ("x", "y").1 ∧ pyStrip ("x", "y").2 = ("x", "y").2 :=
  (c4_trimmed_fields ["x \t y\n"]).1 ("x", "y") (by decide)

/-- C4 counterexample: the line "\t\n" (two fields, both whitespace
after trimming) is retained as an entry whose displayTerm and pageRef
are both empty, contradicting the claimed non-emptiness invariant. -/
theorem c4_counterexample : readContentLines ["\t\n"] = [("", "")] := by decide

theorem resolveEntry_snd (d : List (String × String)) (e : String × String) :
    (resolveEntry d e).2 = e.2 := by
  unfold resolveEntry
  cases dictLookup d e.1 <;> rfl

/-- C6 (amended): the sort step permutes the parsed entries without
changing any field, and the substitution step never changes a pageRef;
an entry keeps its first field iff that field is not a recorded sort
key - regardless of whether the entry itself was parsed with an
explicit sort key.  (Claim C6 as stated fails: a normal entry whose
first field coincides with a recorded sort key is also rewritten, see
the counterexample.) -/
theorem c6_frame (ls : List String) :
    (pySortEntries (parseLines ls).data ~ (parseLines ls).data) ∧
    ∀ i : ℕ, ∀ e : String × String,
      (pySortEntries (parseLines ls).data).get? i = some e →
      ((readContentLines ls).get? i).map Prod.snd = some e.2 ∧
      (dictLookup (parseLines ls).sortDict e.1 = none →
        (readContentLines ls).get? i = some e) := by
  refine ⟨pySortEntries_perm _, fun i e hi => ?_⟩
  unfold readContentLines
  rw [get?_map_general, hi]
  constructor
  · simp [resolveEntry_snd]
  · intro hnone
    simp [resolveEntry, hnone]

theorem c6_witness :
    ((readContentLines ["b\t1\n"]).get? 0).map Prod.snd = some "1" ∧
    (readContentLines ["b\t1\n"]).get? 0 = some ("b", "1") := by
  have h := (c6_frame ["b\t1\n"]).2 0 ("b", "1") (by decide)
  exact ⟨h.1, h.2 (by decide)⟩

/-- C6 counterexample: with input lines "B\t1\n" and "A\t2\tB\n", the
first entry is parsed WITHOUT an explicit sort key as ("B", "1"), yet
the substitution step rewrites its first field to "A" (because "B" is a
recorded sort key), so the first field of a no-sort-key entry is not
preserved. -/
theorem c6_counterexample :
    (parseLines ["B\t1\n", "A\t2\tB\n"]).data = [("B", "1"), ("B", "2")] ∧
    readContentLines ["B\t1\n", "A\t2\tB\n"] = [("A", "1"), ("A", "2")] := by
  exact ⟨by decide, by decide⟩

/-- C7: a non-skipped line is rejected iff its tab-split field count is
neither 2 nor 3 (with 3 fields one of the two entry shapes always
applies): such a line's raw split fields are appended to the error
list and nothing else changes, the final entry output is identical to
the output with the line removed (so it never prevents valid lines
before or after it from being parsed, and never aborts the run), and a
line with 2 or 3 fields never extends the error list. -/
theorem c7_rejection (line : String)
    (hh : startsHash line = false) (hn : line ≠ "\n") :
    ((pySplitTab line).length ≠ 2 → (pySplitTab line).length ≠ 3 →
      (∀ s, parseLine s line = { s with errors := s.errors ++ [pySplitTab line] }) ∧
      (∀ pre post,
        readContentLines (pre ++ line :: post) = readContentLines (pre ++ post) ∧
        pySplitTab line ∈ (parseLines (pre ++ line :: post)).errors)) ∧
    ((pySplitTab line).length = 2 ∨ (pySplitTab line).length = 3 →
      ∀ s, (parseLine s line).errors = s.errors) := by
  constructor
  · intro hl2 hl3
    refine ⟨fun s => parseLine_reject s line hh hn hl2 hl3, fun pre post => ?_⟩
    have hd1 : parseLines (pre ++ line :: post)
        = post.foldl parseLine (parseLine (pre.foldl parseLine ⟨[], [], []⟩) line) := by
      unfold parseLines
      rw [foldl_parseLine_append, List.foldl_cons]
    have hd2 : parseLines (pre ++ post)
        = post.foldl parseLine (pre.foldl parseLine ⟨[], [], []⟩) := by
      unfold parseLines
      rw [foldl_parseLine_append]
    have hrej := parseLine_reject (pre.foldl parseLine ⟨[], [], []⟩) line hh hn hl2 hl3
    obtain ⟨hdata, hdict⟩ := foldl_parseLine_congr post
      (parseLine (pre.foldl parseLine ⟨[], [], []⟩) line)
      (pre.foldl parseLine ⟨[], [], []⟩) (by rw [hrej]) (by rw [hrej])
    constructor
    · unfold readContentLines
      rw [hd1, hd2, hdata, hdict]
    · rw [hd1]
      apply foldl_parseLine_errors_mem
      rw [hrej]
      simp
  · intro hl s
    rcases hl with h2 | h3
    · obtain ⟨t, p, hs⟩ := List.length_eq_two.mp h2
      rw [parseLine_normal2 s line t p hh hn hs]
    · obtain ⟨t, p, k, hs⟩ := List.length_eq_three.mp h3
      by_cases hk : pyStrip k = ""
      · rw [parseLine_normal3 s line t p k hh hn hs hk]
      · rw [parseLine_explicit s line t p k hh hn hs hk]

theorem c7_witness :
    readContentLines ["x\t1\n", "a\tb\tc\td\n", "y\t2\n"]
        = readContentLines ["x\t1\n", "y\t2\n"] ∧
    pySplitTab "a\tb\tc\td\n" ∈ (parseLines ["x\t1\n", "a\tb\tc\td\n", "y\t2\n"]).errors := by
  have h := ((c7_rejection "a\tb\tc\td\n" (by decide) (by decide)).1
    (by decide) (by decide)).2 ["x\t1\n"] ["y\t2\n"]
  exact h

/-- C3 (amended): an entry parsed from an explicit-sort-key line whose
trimmed sort key is not recorded again by any later line appears in the
final output at the position its sort key dictates - the sorted
provisional list holds (trimmed key, trimmed pageRef) at some index, is
sorted by lowercased first field, and the final output at that very
index is (trimmed display term, trimmed pageRef).  (Without the
no-later-recurrence hypothesis the claim fails, see the
counterexample: a later line with the same key overwrites the mapping.) -/
theorem c3_sort_key_resolution (pre post : List String) (line t p k : String)
    (hh : startsHash line = false) (hn : line ≠ "\n")
    (hs : pySplitTab line = [t, p, k]) (hk : pyStrip k ≠ "")
    (hpost : ∀ l ∈ post, recordsKeyB (pyStrip k) l = false) :
    (∃ i : ℕ,
      (pySortEntries (parseLines (pre ++ line :: post)).data).get? i
          = some (pyStrip k, pyStrip p) ∧
      (readContentLines (pre ++ line :: post)).get? i = some (pyStrip t, pyStrip p)) ∧
    List.Pairwise entRel (pySortEntries (parseLines (pre ++ line :: post)).data) := by
  have hd1 : parseLines (pre ++ line :: post)
      = post.foldl parseLine (parseLine (pre.foldl parseLine ⟨[], [], []⟩) line) := by
    unfold parseLines
    rw [foldl_parseLine_append, List.foldl_cons]
  have hexp := parseLine_explicit (pre.foldl parseLine ⟨[], [], []⟩) line t p k hh hn hs hk
  have hlook : dictLookup (parseLines (pre ++ line :: post)).sortDict (pyStrip k)
      = some (pyStrip t) := by
    rw [hd1, foldl_parseLine_dict_stable post _ _ hpost, hexp]
    unfold dictLookup
    rw [List.find?_cons_of_pos _ (by simp)]
    rfl
  have hmem : (pyStrip k, pyStrip p) ∈ (parseLines (pre ++ line :: post)).data := by
    rw [hd1]
    apply foldl_parseLine_data_mem
    rw [hexp]
    simp
  have hmem2 : (pyStrip k, pyStrip p)
      ∈ pySortEntries (parseLines (pre ++ line :: post)).data :=
    ((pySortEntries_perm _).mem_iff).mpr hmem
  obtain ⟨i, hi⟩ := List.get?_of_mem hmem2
  refine ⟨⟨i, hi, ?_⟩, pySortEntries_pairwise _⟩
  unfold readContentLines
  rw [get?_map_general, hi]
  simp [resolveEntry, hlook]

theorem c3_witness :
    (readContentLines ["Dr. Smith\t3\tSmith\n"]).get? 0 = some ("Dr. Smith", "3") := by
  obtain ⟨⟨i, hi, h2⟩, -⟩ := c3_sort_key_resolution [] [] "Dr. Smith\t3\tSmith\n"
    "Dr. Smith" "3" "Smith\n" (by decide) (by decide) (by decide) (by decide) (by simp)
  have hlen : (pySortEntries (parseLines ([] ++ "Dr. Smith\t3\tSmith\n" :: [])).data).length
      = 1 := by decide
  obtain ⟨hlt', -⟩ := List.get?_eq_some.mp hi
  rw [hlen] at hlt'
  have hi0 : i = 0 := by omega
  subst hi0
  have e1 : pyStrip "Dr. Smith" = "Dr. Smith" := by decide
  have e2 : pyStrip "3" = "3" := by decide
  rw [e1, e2] at h2
  exact h2

/-- C3 counterexample: with lines "A\t1\tZ\n" and "B\t2\tZ\n" (two
explicit-sort-key lines sharing trimmed key "Z"), the entry parsed from
the first line is emitted displaying "B", and no output entry displays
the first line's display term "A" - so an explicit-sort-key entry does
not always display its own line's first field. -/
theorem c3_counterexample :
    readContentLines ["A\t1\tZ\n", "B\t2\tZ\n"] = [("B", "1"), ("B", "2")] ∧
    ∀ e ∈ readContentLines ["A\t1\tZ\n", "B\t2\tZ\n"], e.1 ≠ "A" := by
  exact ⟨by decide, by decide⟩

/-- C10: when two explicit-sort-key lines share the same trimmed sort
key and no later line records that key again, the side mapping retains
only the later line's display term; both provisional entries (key,
trimmed pageRef) are in the parsed data, and after normalization every
output entry whose provisional first field equals that key - whichever
line it came from, including normal entries whose display term happens
to equal the key - displays the later line's display term. -/
theorem c10_duplicate_keys (pre mid post : List String)
    (l1 l2 t1 p1 k1 t2 p2 k2 key : String)
    (h1h : startsHash l1 = false) (h1n : l1 ≠ "\n")
    (h1s : pySplitTab l1 = [t1, p1, k1]) (h1k : pyStrip k1 = key)
    (h2h : startsHash l2 = false) (h2n : l2 ≠ "\n")
    (h2s : pySplitTab l2 = [t2, p2, k2]) (h2k : pyStrip k2 = key)
    (hkey : key ≠ "")
    (hpost : ∀ l ∈ post, recordsKeyB key l = false) :
    dictLookup (parseLines (pre ++ l1 :: mid ++ l2 :: post)).sortDict key
        = some (pyStrip t2) ∧
    (key, pyStrip p1) ∈ (parseLines (pre ++ l1 :: mid ++ l2 :: post)).data ∧
    (key, pyStrip p2) ∈ (parseLines (pre ++ l1 :: mid ++ l2 :: post)).data ∧
    ∀ i : ℕ, ∀ e : String × String,
      (pySortEntries (parseLines (pre ++ l1 :: mid ++ l2 :: post)).data).get? i
          = some e →
      e.1 = key →
      (readContentLines (pre ++ l1 :: mid ++ l2 :: post)).get? i
          = some (pyStrip t2, e.2) := by
  have hd1 : parseLines (pre ++ l1 :: mid ++ l2 :: post)
      = post.foldl parseLine
          (parseLine
            (mid.foldl parseLine (parseLine (pre.foldl parseLine ⟨[], [], []⟩) l1))
            l2) := by
    unfold parseLines
    rw [foldl_parseLine_append, List.foldl_cons, foldl_parseLine_append, List.foldl_cons]
  have hexp1 := parseLine_explicit (pre.foldl parseLine ⟨[], [], []⟩) l1 t1 p1 k1 h1h h1n h1s
    (by rw [h1k]; exact hkey)
  have hexp2 := parseLine_explicit
    (mid.foldl parseLine (parseLine (pre.foldl parseLine ⟨[], [], []⟩) l1)) l2 t2 p2 k2
    h2h h2n h2s (by rw [h2k]; exact hkey)
  have hlook : dictLookup (parseLines (pre ++ l1 :: mid ++ l2 :: post)).sortDict key
      = some (pyStrip t2) := by
    rw [hd1, foldl_parseLine_dict_stable post _ _ hpost, hexp2]
    unfold dictLookup
    rw [List.find?_cons_of_pos _ (by simp [h2k])]
    rfl
  have hm1 : (key, pyStrip p1) ∈ (parseLines (pre ++ l1 :: mid ++ l2 :: post)).data := by
    rw [hd1]
    apply foldl_parseLine_data_mem
    apply parseLine_data_mem
    apply foldl_parseLine_data_mem
    rw [hexp1, h1k]
    simp
  have hm2 : (key, pyStrip p2) ∈ (parseLines (pre ++ l1 :: mid ++ l2 :: post)).data := by
    rw [hd1]
    apply foldl_parseLine_data_mem
    rw [hexp2, h2k]
    simp
  refine ⟨hlook, hm1, hm2, fun i e hi he1 => ?_⟩
  unfold readContentLines
  rw [get?_map_general, hi]
  have hre : resolveEntry (parseLines (pre ++ l1 :: mid ++ l2 :: post)).sortDict e
      = (pyStrip t2, e.2) := by
    unfold resolveEntry
    rw [he1, hlook]
  exact congrArg some hre

theorem c10_witness :
    dictLookup (parseLines ["A\t1\tZ\n", "B\t2\tZ\n"]).sortDict "Z" = some "B" ∧
    (readContentLines ["A\t1\tZ\n", "B\t2\tZ\n"]).get? 0 = some ("B", "1") := by
  have h := c10_duplicate_keys [] [] [] "A\t1\tZ\n" "B\t2\tZ\n" "A" "1" "Z\n" "B" "2" "Z\n"
    "Z" (by decide) (by decide) (by decide) (by decide) (by decide) (by decide) (by decide)
    (by decide) (by decide) (by simp)
  refine ⟨h.1, ?_⟩
  have h4 := h.2.2.2 0 ("Z", "1") (by decide) (by decide)
  have e1 : pyStrip "B" = "B" := by decide
  rw [e1] at h4
  exact h4
